import Mathlib

/-!
Verification of `src/convert.ts` (FHIR-CodeSystem-to-ValueSet).

The TypeScript source is shallowly embedded below.  JavaScript strings are
Lean `String`s; a JavaScript value that may be `undefined` is an
`Option`; JavaScript truthiness of a string is "not the empty string";
a thrown JavaScript exception is an `Except.error`.
The embedding keeps the source's names (`codeSystemToValueSet`,
`csvToValueSet`, ...) and mirrors the source line by line; comments cite
the line numbers of `src/convert.ts`.
-/

set_option linter.unusedVariables false

namespace ConvertTs

/-! ## Data model (fhir/r5 shapes actually used by the source) -/

/-- A concept as it appears inside `ValueSet.compose.include[].concept`
(and, with the same fields, inside `CodeSystem.concept`):
`code` is required, `display` and `definition` are optional. -/
structure Concept where
  code : String
  display : Option String
  definition : Option String
deriving Repr, DecidableEq

/-- `ValueSetComposeInclude`: one inclusion group.  Both `system` and
`concept` are optional in the FHIR type, which is why the source guards
`include[systemIndex].concept` at convert.ts:90. -/
structure ValueSetComposeInclude where
  system : Option String
  concept : Option (List Concept)
deriving Repr, DecidableEq

/-- `ValueSet.compose`. -/
structure ValueSetCompose where
  include' : List ValueSetComposeInclude
deriving Repr, DecidableEq

/-- The output `ValueSet` object as constructed at convert.ts:40-59 and
convert.ts:106-116 (field order follows the object literal). -/
structure ValueSet where
  resourceType : String
  id : Option String
  url : Option String
  name : Option String
  description : Option String
  status : String
  compose : ValueSetCompose
deriving Repr, DecidableEq

/-- The loaded structured input document (`CodeSystem`), with the
properties the source can touch: its own `url` and its `concept` list
(both optional in FHIR), plus the metadata fields that the intended
option-defaulting merge would read. -/
structure CodeSystem where
  url : Option String := none
  concept : Option (List Concept) := none
  name : Option String := none
  description : Option String := none
  id : Option String := none
deriving Repr, DecidableEq

/-- A thrown JavaScript exception: either a `TypeError` raised by the
runtime (e.g. a member access on `undefined`) or an explicit
`throw new Error(msg)`. -/
inductive JsError where
  | typeError (msg : String)
  | errorThrown (msg : String)
deriving Repr, DecidableEq

/-- JavaScript truthiness of a possibly-`undefined` string:
`undefined` and `""` are falsy, every other string is truthy. -/
def jsTruthy : Option String → Bool
  | none => false
  | some s => s != ""

/-- JavaScript `a || b` for a possibly-`undefined` string `a` and a
string default `b` (used at convert.ts:105, 109, 110, 112). -/
def jsOr (a : Option String) (b : String) : String :=
  match a with
  | none => b
  | some s => if s == "" then b else s

/-! ## Flat-record parsing (convert.ts:77-86) -/

/-- JavaScript `str.split(sep)` for a one-character separator (the source
only splits on `'\n'` and `','`): cut the character list at every
occurrence of `sep`, keeping empty chunks, so that splitting the empty
list yields one empty chunk — exactly `"".split(",") === [""]`. -/
def splitOnChar (sep : Char) : List Char → List (List Char)
  | [] => [[]]
  | c :: cs =>
    match splitOnChar sep cs with
    | [] => [[]]
    | chunk :: rest =>
      if c == sep then [] :: chunk :: rest else (c :: chunk) :: rest

/-- JavaScript `str.split(sep)` on strings, via `splitOnChar`. -/
def jsSplit (s : String) (sep : Char) : List String :=
  (splitOnChar sep s.data).map String.mk

/-- One parsed flat record: `const [code, system, display] = line.split(',')`
(convert.ts:84).  `split` always yields at least one element, so `code` is
a string; `system` and `display` are `undefined` when the line has fewer
than two / three comma-separated fields. -/
structure Record where
  code : String
  system : Option String
  display : Option String
deriving Repr, DecidableEq

/-- Parse one line of the flat file (convert.ts:84): split on `,` with no
quoting or escaping, destructure the first three fields. -/
def parseLine (line : String) : Record :=
  let fields := jsSplit line ','
  { code := fields.headD "", system := fields[1]?, display := fields[2]? }

/-- The first (code) field of a line, used to state C3
(`!code` skips the line, convert.ts:86). -/
def lineCode (line : String) : String :=
  (jsSplit line ',').headD ""

/-- The lines the loop at convert.ts:82 visits: `csv.split('\n')` with
line index 0 (the header) skipped unconditionally. -/
def flatLines (csv : String) : List String :=
  (jsSplit csv (Char.ofNat 10)).drop 1

/-- The records the grouping loop actually processes: each visited line is
parsed, and a line whose `code` field is falsy is skipped (convert.ts:86). -/
def csvRecords (csv : String) : List Record :=
  ((flatLines csv).map parseLine).filter (fun r => r.code != "")

/-! ## Grouping engine (convert.ts:81-102) -/

/-- The output concept pushed for a flat record (convert.ts:94, 99):
`{ code, display }`, no `definition` key. -/
def toConcept (r : Record) : Concept :=
  { code := r.code, display := r.display, definition := none }

/-- convert.ts:90-94: if the found group's `concept` is falsy
(`undefined`; note an empty array is truthy in JavaScript) re-initialise
it to `[]`, then push the new concept onto it. -/
def pushConcept (g : ValueSetComposeInclude) (c : Concept) : ValueSetComposeInclude :=
  match g.concept with
  | none => { g with concept := some [c] }
  | some l => { g with concept := some (l ++ [c]) }

/-- One iteration of the loop body at convert.ts:88-101 for a record that
survived the empty-code check: `include.findIndex(g => g.system === system)`
finds the *first* group whose `system` is strictly (`===`) equal to the
record's system — `undefined === undefined` holds, `"" === undefined`
does not, exactly the `Option String` equality used here.  On a hit the
concept is pushed onto that group; on a miss a new group
`{ system, concept: [{ code, display }] }` is appended at the end. -/
def addRecord (include' : List ValueSetComposeInclude) (r : Record) :
    List ValueSetComposeInclude :=
  match include' with
  | [] => [{ system := r.system, concept := some [toConcept r] }]
  | g :: gs =>
    if g.system == r.system then
      pushConcept g (toConcept r) :: gs
    else
      g :: addRecord gs r

/-- The whole grouping loop (convert.ts:81-102): fold the per-line body
over the surviving records, starting from the empty `include` array. -/
def groupRecords (rs : List Record) : List ValueSetComposeInclude :=
  rs.foldl addRecord []

/-- Node `path.basename` for the POSIX paths this tool receives: the part
of the path after the last `/` (trailing separators stripped). -/
def basename (p : String) : String :=
  ((jsSplit p (Char.ofNat 47)).filter (fun s => s != "")).getLastD ""

/-- JavaScript `str.replace(/X$/ , repl)` for a literal pattern anchored
at the end of the string: when `oldSuffix` is a suffix of `s`, drop it and
append `newSuffix`; otherwise return `s` unchanged
(convert.ts:105, 160, 161). -/
def replaceSuffix (s oldSuffix newSuffix : String) : String :=
  if oldSuffix.data.isSuffixOf s.data then
    ⟨s.data.take (s.data.length - oldSuffix.data.length) ++ newSuffix.data⟩
  else s

/-- Caller options of `csvToValueSet` (convert.ts:68-75).  The TypeScript
type declares `status` as a required union of four literals, but the
JavaScript runtime value may be absent or empty, which is what the
`options.status || 'active'` guard at convert.ts:112 is for; the runtime
superset `Option String` is modelled. -/
structure CsvOptions where
  csvFile : String
  status : Option String
  url : Option String
  name : Option String
  description : Option String
  id : Option String
deriving Repr, DecidableEq

/-- `csvToValueSet` (convert.ts:68-120).  The file content read by
`fs.readFileSync(options.csvFile, 'utf8')` at convert.ts:77 is passed in
as the argument `csv` (file I/O is external).  The function cannot throw:
it always returns a `ValueSet`, even when no record survives.
convert.ts:105: `options.id || path.basename(csvFile).replace(/\.csv$/, '')`;
convert.ts:109: `options.url || template with the resolved id`;
convert.ts:110: `options.name || id`; convert.ts:111: `description`
passed through; convert.ts:112: `options.status || 'active'`. -/
def csvToValueSet (options : CsvOptions) (csv : String) : ValueSet :=
  let include' := groupRecords (csvRecords csv)
  let id := jsOr options.id (replaceSuffix (basename options.csvFile) ".csv" "")
  { resourceType := "ValueSet"
    id := some id
    url := some (jsOr options.url ("http://hl7.org/fhir/ValueSet/" ++ id))
    name := some (jsOr options.name id)
    description := options.description
    status := jsOr options.status "active"
    compose := { include' := include' } }

/-! ## Structured path: `codeSystemToValueSet` (convert.ts:15-63)

convert.ts:25 loads the JSON document into the *local* variable
`codeSystem`, but every later line reads `options.codeSystem` — a
property that is never assigned anywhere, so its value is `undefined`
(the TypeScript index signature `[key: string]: any` at convert.ts:22 and
the `@ts-ignore` at convert.ts:29 keep the compiler silent about it).
Concretely:

* convert.ts:27 iterates the own enumerable properties of the options
  object literal built at convert.ts:145-152, in insertion order:
  `jsonFile`, `status`, `url`, `name`, `description`, `id`.
* convert.ts:28 evaluates, for the first property whose value is falsy,
  `options.codeSystem.hasOwnProperty(property)` — a member access on
  `undefined`, which throws a `TypeError`.
* If every property is truthy the loop finishes, and convert.ts:35
  evaluates `!options.codeSystem.concept` — again a member access on
  `undefined`, again a `TypeError`.

Hence the function always throws a `TypeError`; the object literal at
convert.ts:40-59 and the `throw new Error('CodeSystem must have at least
one concept')` at convert.ts:36 are unreachable. -/

/-- Caller options of `codeSystemToValueSet` (convert.ts:15-23) as built
by the CLI action at convert.ts:145-152.  There is no `codeSystem` key:
the object literal never sets one. -/
structure StructOptions where
  jsonFile : String
  status : String
  url : Option String
  name : Option String
  description : Option String
  id : Option String
deriving Repr, DecidableEq

/-- The `TypeError` thrown by a property access on `undefined`
(`options.codeSystem` is `undefined`, see the section comment). -/
def typeErrorUndefined (member : String) : Except JsError ValueSet :=
  Except.error (JsError.typeError
    ("Cannot read properties of undefined (reading " ++ member ++ ")"))

/-- `codeSystemToValueSet` (convert.ts:15-63).  The document loaded by
`require(options.jsonFile)` at convert.ts:25 is passed in as the argument
`codeSystem` (file I/O is external); the source never uses this local
again.  The branches mirror the property loop at convert.ts:27-32 in
insertion order — the truthy properties are skipped, and the first falsy
one evaluates `options.codeSystem.hasOwnProperty(property)`, throwing a
`TypeError` because `options.codeSystem` is `undefined`.  If all six
properties are truthy, the concept check at convert.ts:35 reads
`options.codeSystem.concept` and throws the same way. -/
def codeSystemToValueSet (codeSystem : CodeSystem) (options : StructOptions) :
    Except JsError ValueSet :=
  if options.jsonFile == "" then typeErrorUndefined "hasOwnProperty"
  else if options.status == "" then typeErrorUndefined "hasOwnProperty"
  else if !jsTruthy options.url then typeErrorUndefined "hasOwnProperty"
  else if !jsTruthy options.name then typeErrorUndefined "hasOwnProperty"
  else if !jsTruthy options.description then typeErrorUndefined "hasOwnProperty"
  else if !jsTruthy options.id then typeErrorUndefined "hasOwnProperty"
  else typeErrorUndefined "concept"

/-! ## Serialization (convert.ts:154) -/

/-- One character escaped as inside a JSON string literal, following
`JSON.stringify`: quote and backslash get a backslash, the named control
characters use their short escapes, other control characters use
`\u00XX`, everything else is copied verbatim. -/
def escapeJsonChar (c : Char) : List Char :=
  if c == Char.ofNat 34 then [Char.ofNat 92, Char.ofNat 34]
  else if c == Char.ofNat 92 then [Char.ofNat 92, Char.ofNat 92]
  else if c == Char.ofNat 10 then [Char.ofNat 92, 'n']
  else if c == Char.ofNat 13 then [Char.ofNat 92, 'r']
  else if c == Char.ofNat 9 then [Char.ofNat 92, 't']
  else if c == Char.ofNat 8 then [Char.ofNat 92, 'b']
  else if c == Char.ofNat 12 then [Char.ofNat 92, 'f']
  else if c.toNat < 32 then
    [Char.ofNat 92, 'u', '0', '0',
     Nat.digitChar (c.toNat / 16), Nat.digitChar (c.toNat % 16)]
  else [c]

/-- A JSON string literal for `s`, double quotes included. -/
def jsonString (s : String) : String :=
  String.mk ((Char.ofNat 34 :: (s.data.map escapeJsonChar).flatten) ++ [Char.ofNat 34])

/-- `"key": value` rendered for a present field; an `undefined`
(`none`) value yields no output line, exactly as `JSON.stringify`
omits object properties whose value is `undefined`. -/
def jsonField (key : String) : Option String → Option String
  | none => none
  | some v => some (jsonString key ++ ": " ++ v)

/-- Join the present `"key": value` items of one object with
`,\n` separators and the given indentation, wrapped in braces, as
`JSON.stringify(x, null, 2)` lays an object out.  An object with no
present fields renders as `\x7b\x7d`. -/
def jsonObject (indent : String) (fields : List (Option String)) : String :=
  match fields.filterMap id with
  | [] => "\x7b\x7d"
  | items =>
    "\x7b\n" ++ String.intercalate (",\n") (items.map (fun it => indent ++ "  " ++ it))
      ++ "\n" ++ indent ++ "\x7d"

/-- An array laid out by `JSON.stringify(x, null, 2)`: `[]` when empty,
otherwise one element per line at the deeper indentation. -/
def jsonArray (indent : String) (elems : List String) : String :=
  match elems with
  | [] => "[]"
  | _ =>
    "[\n" ++ String.intercalate (",\n") (elems.map (fun e => indent ++ "  " ++ e))
      ++ "\n" ++ indent ++ "]"

/-- One output concept as `JSON.stringify` renders it (key order
`code`, `display`, `definition`; absent optionals omitted). -/
def renderConcept (indent : String) (c : Concept) : String :=
  jsonObject indent
    [jsonField "code" (some (jsonString c.code)),
     jsonField "display" (c.display.map jsonString),
     jsonField "definition" (c.definition.map jsonString)]

/-- One inclusion group as `JSON.stringify` renders it. -/
def renderInclude (indent : String) (g : ValueSetComposeInclude) : String :=
  jsonObject indent
    [jsonField "system" (g.system.map jsonString),
     jsonField "concept" (g.concept.map (fun cs =>
       jsonArray (indent ++ "  ")
         (cs.map (renderConcept (indent ++ "    ")))))]

/-- `JSON.stringify(valueSet, null, 2)` (convert.ts:154): the output
document serialized with two-space indentation, keys in construction
order, `undefined` fields omitted. -/
def stringifyValueSet (v : ValueSet) : String :=
  jsonObject ""
    [jsonField "resourceType" (some (jsonString v.resourceType)),
     jsonField "id" (v.id.map jsonString),
     jsonField "url" (v.url.map jsonString),
     jsonField "name" (v.name.map jsonString),
     jsonField "description" (v.description.map jsonString),
     jsonField "status" (some (jsonString v.status)),
     jsonField "compose" (some (jsonObject "  "
       [jsonField "include" (some (jsonArray "    "
         (v.compose.include'.map (renderInclude "      "))))]))]

/-! ## CLI glue (convert.ts:122-167) -/

/-- The user-supplied CLI option values (convert.ts:126-131); `none`
means the flag was not given.  Commander substitutes the declared
default `'draft'` for an absent `--status` (convert.ts:131). -/
structure CliOptions where
  status : Option String
  url : Option String
  name : Option String
  description : Option String
  id : Option String
deriving Repr, DecidableEq

/-- The `options.status` value the action at convert.ts:132 receives:
the user's value, or commander's declared default `'draft'`. -/
def commanderStatus (userStatus : Option String) : String :=
  userStatus.getD "draft"

/-- The flat branch of the CLI action (convert.ts:135-143): taken when
the input path ends in `.csv`, it forwards the options — `status` always
present thanks to commander's default — to `csvToValueSet`. -/
def cliRunCsv (file csv : String) (o : CliOptions) : ValueSet :=
  csvToValueSet
    { csvFile := file, status := some (commanderStatus o.status),
      url := o.url, name := o.name, description := o.description, id := o.id }
    csv

/-- The structured branch of the CLI action (convert.ts:144-153), with
the loaded document passed in for `require`. -/
def cliRunJson (file : String) (doc : CodeSystem) (o : CliOptions) :
    Except JsError ValueSet :=
  codeSystemToValueSet doc
    { jsonFile := file, status := commanderStatus o.status,
      url := o.url, name := o.name, description := o.description, id := o.id }

/-- Output-path derivation for a bare `--output` flag (convert.ts:159-161):
`outFile = file.replace(/\.json$/, '-value-set.json')` and then
`outFile = outFile.replace(/\.csv$/, '.json')`. -/
def deriveOutFile (file : String) : String :=
  replaceSuffix (replaceSuffix file ".json" "-value-set.json") ".csv" ".json"

/-- The full structured run as observable on stdout or in the output
file: convert, then serialize (convert.ts:145-154).  A thrown exception
propagates and nothing is written. -/
def structuredRun (file : String) (doc : CodeSystem) (o : CliOptions) :
    Except JsError String :=
  (cliRunJson file doc o).map stringifyValueSet

/-! ## Specification-side descriptions of the grouping loop

These definitions restate what the loop at convert.ts:81-102 computes in
a directly structural form; `groupRecords_eq_groupSpec` proves the loop
equal to them.  They are proof devices, not part of the embedding. -/


def dedupFirst : List (Option String) → List (Option String)
  | [] => []
  | s :: ss => s :: dedupFirst (ss.filter (fun x => x != s))
termination_by l => l.length
decreasing_by exact Nat.lt_succ_of_le (List.length_filter_le _ _)

def groupSpec : List Record → List ValueSetComposeInclude
  | [] => []
  | r :: rs =>
    { system := r.system,
      concept := some (toConcept r :: ((rs.filter (fun x => x.system == r.system)).map toConcept)) }
      :: groupSpec (rs.filter (fun x => x.system != r.system))
termination_by l => l.length
decreasing_by exact Nat.lt_succ_of_le (List.length_filter_le _ _)

def appendMatches (rs : List Record) (g : ValueSetComposeInclude) : ValueSetComposeInclude :=
  match g.concept with
  | some l =>
    { g with concept := some (l ++ (rs.filter (fun x => x.system == g.system)).map toConcept) }
  | none =>
    match (rs.filter (fun x => x.system == g.system)).map toConcept with
    | [] => g
    | ms => { g with concept := some ms }

theorem appendMatches_nil (g : ValueSetComposeInclude) : appendMatches [] g = g := by
  cases g with
  | mk sys c => cases c <;> simp [appendMatches]

theorem appendMatches_cons_ne (r : Record) (rs : List Record)
    (g : ValueSetComposeInclude) (h : g.system ≠ r.system) :
    appendMatches (r :: rs) g = appendMatches rs g := by
  have hb : (r.system == g.system) = false := beq_eq_false_iff_ne.mpr (fun e => h e.symm)
  cases g with
  | mk sys c =>
    cases c <;> simp only [appendMatches, List.filter_cons] <;>
      simp only [hb] <;> simp

theorem appendMatches_push (r : Record) (rs : List Record)
    (g : ValueSetComposeInclude) (h : g.system = r.system) :
    appendMatches rs (pushConcept g (toConcept r)) = appendMatches (r :: rs) g := by
  have hb : (r.system == g.system) = true := beq_iff_eq.mpr h.symm
  cases g with
  | mk sys c =>
    cases c <;>
      simp only [pushConcept, appendMatches, List.filter_cons, hb, if_true,
        List.map_cons] <;> simp

theorem addRecord_not_mem (gs : List ValueSetComposeInclude) (r : Record)
    (h : r.system ∉ gs.map ValueSetComposeInclude.system) :
    addRecord gs r = gs ++ [{ system := r.system, concept := some [toConcept r] }] := by
  induction gs with
  | nil => rfl
  | cons g gs ih =>
    simp only [List.map_cons, List.mem_cons, not_or] at h
    have hb : (g.system == r.system) = false := beq_eq_false_iff_ne.mpr (fun e => h.1 e.symm)
    simp [addRecord, hb, ih h.2]

theorem addRecord_systems_of_mem (gs : List ValueSetComposeInclude) (r : Record)
    (h : r.system ∈ gs.map ValueSetComposeInclude.system) :
    (addRecord gs r).map ValueSetComposeInclude.system
      = gs.map ValueSetComposeInclude.system := by
  induction gs with
  | nil => simp at h
  | cons g gs ih =>
    by_cases he : g.system = r.system
    · have hb : (g.system == r.system) = true := beq_iff_eq.mpr he
      cases g with
      | mk sys c => cases c <;> simp_all [addRecord, pushConcept]
    · have hb : (g.system == r.system) = false := beq_eq_false_iff_ne.mpr he
      simp only [List.map_cons, List.mem_cons] at h
      rcases h with h | h
      · exact absurd h.symm he
      · simp [addRecord, hb, ih h]

theorem map_appendMatches_addRecord (gs : List ValueSetComposeInclude)
    (r : Record) (rs : List Record)
    (hmem : r.system ∈ gs.map ValueSetComposeInclude.system)
    (hnd : (gs.map ValueSetComposeInclude.system).Nodup) :
    (addRecord gs r).map (appendMatches rs) = gs.map (appendMatches (r :: rs)) := by
  induction gs with
  | nil => simp at hmem
  | cons g gs ih =>
    simp only [List.map_cons, List.nodup_cons] at hnd
    by_cases he : g.system = r.system
    · have hb : (g.system == r.system) = true := beq_iff_eq.mpr he
      simp only [addRecord, hb, if_true, List.map_cons, List.cons.injEq]
      refine ⟨appendMatches_push r rs g he, ?_⟩
      refine List.map_congr_left (fun x hx => ?_)
      have hxne : x.system ≠ r.system := by
        intro hxe
        exact hnd.1 (he ▸ hxe ▸ List.mem_map_of_mem ValueSetComposeInclude.system hx)
      exact (appendMatches_cons_ne r rs x hxne).symm
    · have hb : (g.system == r.system) = false := beq_eq_false_iff_ne.mpr he
      simp only [List.map_cons, List.mem_cons] at hmem
      rcases hmem with h | h
      · exact absurd h.symm he
      · simp only [addRecord, hb, if_neg, List.map_cons, List.cons.injEq,
          Bool.false_eq_true, if_false]
        exact ⟨(appendMatches_cons_ne r rs g he).symm, ih h hnd.2⟩

/-- The fresh group appended at convert.ts:97-100. -/
def newGroup (r : Record) : ValueSetComposeInclude :=
  { system := r.system, concept := some [toConcept r] }

theorem foldl_addRecord (rs : List Record) :
    ∀ gs : List ValueSetComposeInclude,
      (gs.map ValueSetComposeInclude.system).Nodup →
      List.foldl addRecord gs rs =
        gs.map (appendMatches rs) ++
          groupSpec (rs.filter
            (fun x => decide (x.system ∉ gs.map ValueSetComposeInclude.system))) := by
  induction rs with
  | nil =>
    intro gs _
    simp only [List.foldl_nil, List.filter_nil, groupSpec, List.append_nil]
    calc gs = gs.map id := (List.map_id gs).symm
      _ = gs.map (appendMatches []) := (List.map_congr_left (fun g _ => appendMatches_nil g)).symm
  | cons r rs ih =>
    intro gs hnd
    by_cases hm : r.system ∈ gs.map ValueSetComposeInclude.system
    · have hsys := addRecord_systems_of_mem gs r hm
      have hnd' : ((addRecord gs r).map ValueSetComposeInclude.system).Nodup := by
        rw [hsys]; exact hnd
      have hstep := ih (addRecord gs r) hnd'
      rw [List.foldl_cons, hstep, hsys, map_appendMatches_addRecord gs r rs hm hnd]
      have hrd : decide (r.system ∉ gs.map ValueSetComposeInclude.system) = false :=
        decide_eq_false_iff_not.mpr (not_not_intro hm)
      have hfilter :
          (r :: rs).filter (fun x => decide (x.system ∉ gs.map ValueSetComposeInclude.system))
            = rs.filter (fun x => decide (x.system ∉ gs.map ValueSetComposeInclude.system)) :=
        List.filter_cons_of_neg (ne_true_of_eq_false hrd)
      rw [hfilter]
    · have hstep0 := addRecord_not_mem gs r hm
      have hdisj : ∀ x ∈ gs, x.system ≠ r.system := fun x hx hxe =>
        hm (hxe ▸ List.mem_map_of_mem ValueSetComposeInclude.system hx)
      have hmapn : (gs ++ [newGroup r]).map ValueSetComposeInclude.system
          = gs.map ValueSetComposeInclude.system ++ [r.system] := by
        simp [newGroup]
      have hnd' : ((gs ++ [newGroup r]).map ValueSetComposeInclude.system).Nodup := by
        rw [hmapn, List.nodup_append]
        refine ⟨hnd, List.nodup_singleton _, fun a ha hb => ?_⟩
        simp only [List.mem_singleton] at hb
        exact hm (hb ▸ ha)
      have hstep := ih (gs ++ [newGroup r]) hnd'
      rw [List.foldl_cons, hstep0, ← newGroup, hstep]
      have hrd : decide (r.system ∉ gs.map ValueSetComposeInclude.system) = true :=
        decide_eq_true hm
      have hfilter :
          (r :: rs).filter (fun x => decide (x.system ∉ gs.map ValueSetComposeInclude.system))
            = r :: rs.filter (fun x => decide (x.system ∉ gs.map ValueSetComposeInclude.system)) :=
        List.filter_cons_of_pos hrd
      rw [hfilter, groupSpec]
      have hmapgs :
          gs.map (appendMatches rs) = gs.map (appendMatches (r :: rs)) := by
        refine List.map_congr_left (fun x hx => ?_)
        have hxne : x.system ≠ r.system := by
          intro hxe
          exact hm (hxe ▸ List.mem_map_of_mem ValueSetComposeInclude.system hx)
        exact (appendMatches_cons_ne r rs x hxne).symm
      have hff :
          ((rs.filter (fun x => decide (x.system ∉ gs.map ValueSetComposeInclude.system))).filter
             (fun x => x.system == r.system))
            = rs.filter (fun x => x.system == r.system) := by
        rw [List.filter_filter]
        refine List.filter_congr (fun x _ => ?_)
        by_cases hq : x.system = r.system
        · simp [hq, hm]
        · simp [beq_eq_false_iff_ne.mpr hq]
      have hfresh :
          appendMatches rs (newGroup r)
            = { system := r.system,
                concept := some (toConcept r ::
                  (((rs.filter (fun x => decide (x.system ∉ gs.map ValueSetComposeInclude.system))).filter
                    (fun x => x.system == r.system)).map toConcept)) } := by
        rw [hff]
        simp [appendMatches, newGroup]
      have htail :
          rs.filter (fun x => decide (x.system ∉
              (gs.map ValueSetComposeInclude.system) ++ [r.system]))
            = (rs.filter (fun x => decide (x.system ∉ gs.map ValueSetComposeInclude.system))).filter
                (fun x => x.system != r.system) := by
        rw [List.filter_filter]
        refine List.filter_congr (fun x _ => ?_)
        by_cases hq : x.system = r.system
        · simp [hq]
        · simp [hq, bne_iff_ne.mpr hq, List.mem_append]
      simp only [List.map_append, List.map_cons, List.map_nil, List.append_assoc,
        List.singleton_append, hmapgs, hfresh]
      rw [← htail]
      rfl

theorem groupRecords_eq_groupSpec (rs : List Record) :
    groupRecords rs = groupSpec rs := by
  have h := foldl_addRecord rs [] (by simp)
  rw [groupRecords, h]
  simp

theorem groupSpec_system_mem (rs : List Record) :
    ∀ g ∈ groupSpec rs, ∃ r ∈ rs, r.system = g.system := by
  induction rs using groupSpec.induct with
  | case1 => intro g hg; simp [groupSpec] at hg
  | case2 r rs ih =>
    intro g hg
    rw [groupSpec] at hg
    rcases List.mem_cons.mp hg with h | h
    · exact ⟨r, List.mem_cons_self .., by simp [h]⟩
    · obtain ⟨x, hx, hsys⟩ := ih g h
      exact ⟨x, List.mem_cons_of_mem _ (List.mem_filter.mp hx).1, hsys⟩

theorem groupSpec_concept (rs : List Record) :
    ∀ g ∈ groupSpec rs,
      g.concept = some ((rs.filter (fun x => x.system == g.system)).map toConcept) := by
  induction rs using groupSpec.induct with
  | case1 => intro g hg; simp [groupSpec] at hg
  | case2 r rs ih =>
    intro g hg
    rw [groupSpec] at hg
    rcases List.mem_cons.mp hg with h | h
    · subst h
      have hb : (r.system == r.system) = true := beq_iff_eq.mpr rfl
      simp [List.filter_cons_of_pos hb]
    · have hne : g.system ≠ r.system := by
        obtain ⟨x, hx, hsys⟩ := groupSpec_system_mem _ g h
        have := (List.mem_filter.mp hx).2
        rw [← hsys]
        exact bne_iff_ne.mp this
      have hgoal := ih g h
      have hff :
          (rs.filter (fun x => x.system != r.system)).filter (fun x => x.system == g.system)
            = rs.filter (fun x => x.system == g.system) := by
        rw [List.filter_filter]
        refine List.filter_congr (fun x _ => ?_)
        by_cases hq : x.system = g.system
        · simp [hq, hne]
        · simp [beq_eq_false_iff_ne.mpr hq]
      rw [hff] at hgoal
      rw [hgoal]
      have hcons : (r :: rs).filter (fun x => x.system == g.system)
          = rs.filter (fun x => x.system == g.system) :=
        List.filter_cons_of_neg (by simp [beq_eq_false_iff_ne.mpr (fun e => hne e.symm)])
      rw [hcons]

theorem groupSpec_systems (rs : List Record) :
    (groupSpec rs).map ValueSetComposeInclude.system
      = dedupFirst (rs.map Record.system) := by
  induction rs using groupSpec.induct with
  | case1 => simp [groupSpec, dedupFirst]
  | case2 r rs ih =>
    rw [groupSpec, dedupFirst.eq_def]
    simp only [List.map_cons]
    rw [ih]
    congr 1
    rw [List.filter_map]
    congr 1

/-- Number of concepts in one inclusion group (an absent list counts 0). -/
def conceptCount (g : ValueSetComposeInclude) : Nat :=
  (g.concept.getD []).length

/-- Total number of concepts across all inclusion groups. -/
def totalConcepts (gs : List ValueSetComposeInclude) : Nat :=
  (gs.map conceptCount).sum

theorem totalConcepts_addRecord (gs : List ValueSetComposeInclude) (r : Record) :
    totalConcepts (addRecord gs r) = totalConcepts gs + 1 := by
  induction gs with
  | nil => simp [totalConcepts, addRecord, conceptCount]
  | cons g gs ih =>
    by_cases he : g.system = r.system
    · have hb : (g.system == r.system) = true := beq_iff_eq.mpr he
      cases g with
      | mk sys c =>
        cases c <;>
          simp [addRecord, hb, pushConcept, totalConcepts, conceptCount] <;> omega
    · have hb : (g.system == r.system) = false := beq_eq_false_iff_ne.mpr he
      simp only [addRecord, hb, Bool.false_eq_true, if_false, totalConcepts,
        List.map_cons, List.sum_cons] at ih ⊢
      rw [ih]
      omega

theorem totalConcepts_foldl (rs : List Record) :
    ∀ gs : List ValueSetComposeInclude,
      totalConcepts (List.foldl addRecord gs rs) = totalConcepts gs + rs.length := by
  induction rs with
  | nil => intro gs; simp
  | cons r rs ih =>
    intro gs
    rw [List.foldl_cons, ih (addRecord gs r), totalConcepts_addRecord]
    simp [Nat.add_assoc, Nat.add_comm 1 rs.length]

theorem totalConcepts_groupRecords (rs : List Record) :
    totalConcepts (groupRecords rs) = rs.length := by
  have h := totalConcepts_foldl rs []
  simpa [groupRecords, totalConcepts] using h


/-! ## Claim theorems -/


/-- C3: for every flat input, the total number of concepts across all
inclusion groups produced by `csvToValueSet` equals the number of input
lines after line index 0 whose first (code) field is non-empty; lines
with an empty code field contribute no record at all. -/
theorem flat_total_concept_count (csv : String) (options : CsvOptions) :
    totalConcepts (csvToValueSet options csv).compose.include'
      = ((flatLines csv).filter (fun l => lineCode l != "")).length := by
  have h1 : (csvToValueSet options csv).compose.include' = groupRecords (csvRecords csv) := rfl
  rw [h1, totalConcepts_groupRecords, csvRecords]
  rw [List.filter_map, List.length_map]
  rfl

/-- C4: the inclusion groups appear in order of first appearance of each
distinct system value (`dedupFirst`), and each group's concept list is
exactly the arrival-ordered image of the records carrying that system —
single pass, no sorting, no deduplication. -/
theorem flat_grouping_order (rs : List Record) :
    (groupRecords rs).map ValueSetComposeInclude.system = dedupFirst (rs.map Record.system)
    ∧ ∀ g ∈ groupRecords rs,
        g.concept = some ((rs.filter (fun x => x.system == g.system)).map toConcept) := by
  rw [groupRecords_eq_groupSpec]
  exact ⟨groupSpec_systems rs, groupSpec_concept rs⟩

theorem flat_grouping_order_witness :
    (groupRecords
        [{ code := "A", system := some "s1", display := some "dA" },
         { code := "B", system := some "s2", display := none },
         { code := "C", system := some "s1", display := none }]).map
          ValueSetComposeInclude.system
      = dedupFirst [some "s1", some "s2", some "s1"]
    ∧ ({ system := some "s1",
         concept := some [{ code := "A", display := some "dA", definition := none },
                          { code := "C", display := none, definition := none }] }
          : ValueSetComposeInclude).concept
        = some (([{ code := "A", system := some "s1", display := some "dA" },
                  { code := "B", system := some "s2", display := none },
                  { code := "C", system := some "s1", display := none }].filter
                    (fun x => x.system == (some "s1"))).map toConcept) :=
  ⟨(flat_grouping_order _).1,
   (flat_grouping_order _).2 _ (by decide)⟩

/-- C9: every inclusion group ever present while the grouping loop runs
has a `some`, non-empty concept list.  Any intermediate state of the loop
is `groupRecords` of the prefix of records processed so far, so this
statement over all record lists covers every reachable state; in
particular the matched group at convert.ts:89 never has a falsy
`concept`, and the re-initialisation guard at convert.ts:90-92 can never
run. -/
theorem flat_group_concept_nonempty (rs : List Record)
    (g : ValueSetComposeInclude) (hg : g ∈ groupRecords rs) :
    ∃ l, g.concept = some l ∧ l ≠ [] := by
  rw [groupRecords_eq_groupSpec] at hg
  obtain ⟨r, hr, hsys⟩ := groupSpec_system_mem rs g hg
  refine ⟨_, groupSpec_concept rs g hg, ?_⟩
  have hmem : r ∈ rs.filter (fun x => x.system == g.system) :=
    List.mem_filter.mpr ⟨hr, beq_iff_eq.mpr hsys⟩
  exact List.ne_nil_of_mem (List.mem_map_of_mem toConcept hmem)

theorem flat_group_concept_nonempty_witness :
    ∃ l, ({ system := some "s1",
            concept := some [{ code := "A", display := none, definition := none }] }
             : ValueSetComposeInclude).concept = some l ∧ l ≠ [] :=
  flat_group_concept_nonempty
    [{ code := "A", system := some "s1", display := none }] _ (by decide)

/-- C7: grouping matches system identifiers by strict (`===`) equality of
value and type: every concept in a group comes from a record whose
system is *exactly* the group's system (`none` only matches `none`, and
`some ""` only matches `some ""`), and concretely the line
`A1,,Display One` (empty system field) and the bare line `A2` (no system
field at all) land in two different groups, the latter producing a
concept with code `A2` and `undefined` display. -/
theorem flat_system_strict_equality :
    (∀ (rs : List Record) (g : ValueSetComposeInclude), g ∈ groupRecords rs →
       ∀ c ∈ g.concept.getD [], ∃ r ∈ rs, r.system = g.system ∧ toConcept r = c)
    ∧ groupRecords (csvRecords "code,system,display\nA1,,Display One\nA2")
        = [{ system := some "",
             concept := some [{ code := "A1", display := some "Display One",
                                definition := none }] },
           { system := none,
             concept := some [{ code := "A2", display := none,
                                definition := none }] }] := by
  constructor
  · intro rs g hg c hc
    rw [groupRecords_eq_groupSpec] at hg
    rw [groupSpec_concept rs g hg] at hc
    simp only [Option.getD_some] at hc
    obtain ⟨r, hr, hrc⟩ := List.mem_map.mp hc
    exact ⟨r, (List.mem_filter.mp hr).1,
      beq_iff_eq.mp (List.mem_filter.mp hr).2, hrc⟩
  · decide

theorem flat_system_strict_equality_witness :
    ∃ r ∈ ([{ code := "A2", system := none, display := none }] : List Record),
      r.system = (none : Option String) ∧ toConcept r
        = { code := "A2", display := none, definition := none } :=
  flat_system_strict_equality.1
    [{ code := "A2", system := none, display := none }]
    { system := none,
      concept := some [{ code := "A2", display := none, definition := none }] }
    (by decide)
    { code := "A2", display := none, definition := none } (by decide)

theorem groupSpec_ne_nil (rs : List Record) (h : rs ≠ []) : groupSpec rs ≠ [] := by
  cases rs with
  | nil => exact absurd rfl h
  | cons r rs => rw [groupSpec]; exact List.cons_ne_nil _ _

/-- C5 counterexample: a flat input consisting of the header line only
(zero concepts) is *not* a hard failure — `csvToValueSet` returns
normally with an output whose inclusion-group list is empty. -/
theorem empty_flat_input_counterexample :
    (csvToValueSet
        { csvFile := "codes.csv", status := some "draft", url := none,
          name := none, description := none, id := none }
        "code,system,display").compose.include' = []
    ∧ (csvToValueSet
        { csvFile := "codes.csv", status := some "draft", url := none,
          name := none, description := none, id := none }
        "code,system,display").resourceType = "ValueSet" := by
  exact ⟨rfl, rfl⟩

/-- C5 amended: every inclusion group a successful flat run produces is
non-empty, and the output has at least one inclusion group whenever some
post-header line carries a non-empty code; but a flat input yielding
zero concepts returns a successful output with an empty group list
rather than failing.  On the structured path the invariant is vacuous:
`codeSystemToValueSet` never returns successfully at all. -/
theorem output_groups_nonempty (csv : String) (options : CsvOptions) :
    (∀ g ∈ (csvToValueSet options csv).compose.include',
       ∃ l, g.concept = some l ∧ l ≠ [])
    ∧ ((∃ line ∈ flatLines csv, lineCode line ≠ "") →
        (csvToValueSet options csv).compose.include' ≠ [])
    ∧ ∀ (doc : CodeSystem) (o : StructOptions) (v : ValueSet),
        codeSystemToValueSet doc o ≠ Except.ok v := by
  have h1 : (csvToValueSet options csv).compose.include'
      = groupRecords (csvRecords csv) := rfl
  refine ⟨?_, ?_, ?_⟩
  · intro g hg
    rw [h1, groupRecords_eq_groupSpec] at hg
    obtain ⟨r, hr, hsys⟩ := groupSpec_system_mem _ g hg
    refine ⟨_, groupSpec_concept _ g hg, ?_⟩
    exact List.ne_nil_of_mem (List.mem_map_of_mem toConcept
      (List.mem_filter.mpr ⟨hr, beq_iff_eq.mpr hsys⟩))
  · rintro ⟨line, hline, hcode⟩
    rw [h1, groupRecords_eq_groupSpec]
    have hb : ((parseLine line).code != "") = true := by
      have he : (parseLine line).code = lineCode line := rfl
      rw [he]
      exact bne_iff_ne.mpr hcode
    have hmem : parseLine line ∈ csvRecords csv :=
      List.mem_filter.mpr ⟨List.mem_map_of_mem parseLine hline, hb⟩
    exact groupSpec_ne_nil _ (List.ne_nil_of_mem hmem)
  · intro doc o v h
    rw [codeSystemToValueSet] at h
    split_ifs at h <;> simp [typeErrorUndefined] at h

theorem output_groups_nonempty_witness :
    (∃ l, ({ system := some "s",
             concept := some [{ code := "A", display := none, definition := none }] }
              : ValueSetComposeInclude).concept = some l ∧ l ≠ [])
    ∧ (csvToValueSet
        { csvFile := "codes.csv", status := none, url := none,
          name := none, description := none, id := none }
        "code,system,display\nA,s").compose.include' ≠ [] :=
  ⟨(output_groups_nonempty "code,system,display\nA,s"
      { csvFile := "codes.csv", status := none, url := none,
        name := none, description := none, id := none }).1 _ (by decide),
   (output_groups_nonempty "code,system,display\nA,s"
      { csvFile := "codes.csv", status := none, url := none,
        name := none, description := none, id := none }).2.1
     ⟨"A,s", by decide, by decide⟩⟩

/-- C6 counterexample: end-to-end scenario 1 (flat file, no explicit
options) does *not* yield status `active`.  Commander substitutes the
declared default `'draft'` for the absent `--status` flag
(convert.ts:131), so `options.status || 'active'` at convert.ts:112
sees the truthy string `"draft"` and the `'active'` fallback is dead. -/
theorem flat_status_counterexample :
    (cliRunCsv "codes.csv"
        "code,system,display\nA,http://sys,Alpha\nB,http://sys,Beta\nC,http://other,Gamma\n"
        { status := none, url := none, name := none, description := none,
          id := none }).status = "draft"
    ∧ (cliRunCsv "codes.csv"
        "code,system,display\nA,http://sys,Alpha\nB,http://sys,Beta\nC,http://other,Gamma\n"
        { status := none, url := none, name := none, description := none,
          id := none }).status ≠ "active" := by
  exact ⟨rfl, by decide⟩

/-- C6 amended: with no explicit values, `id` is the input base filename
with a trailing `.csv` stripped, `url` is the fixed base followed by the
resolved id, `name` equals the resolved id and `description` stays
unset, exactly as claimed; `csvToValueSet` itself resolves a falsy
status to `'active'`, but end to end the CLI always passes its own
default `'draft'`, so a run with no explicit options produces status
`'draft'`, not `'active'`. -/
theorem flat_field_defaulting (options : CsvOptions) (csv : String)
    (hid : options.id = none) (hurl : options.url = none)
    (hname : options.name = none) (hdesc : options.description = none) :
    (csvToValueSet options csv).id
        = some (replaceSuffix (basename options.csvFile) ".csv" "")
    ∧ (csvToValueSet options csv).url
        = some ("http://hl7.org/fhir/ValueSet/"
            ++ replaceSuffix (basename options.csvFile) ".csv" "")
    ∧ (csvToValueSet options csv).name
        = some (replaceSuffix (basename options.csvFile) ".csv" "")
    ∧ (csvToValueSet options csv).description = none
    ∧ (options.status = none → (csvToValueSet options csv).status = "active")
    ∧ (∀ (file content : String) (u : CliOptions), u.status = none →
        (cliRunCsv file content u).status = "draft") := by
  refine ⟨?_, ?_, ?_, ?_, ?_, ?_⟩
  · simp [csvToValueSet, hid, jsOr]
  · simp [csvToValueSet, hid, hurl, jsOr]
  · simp [csvToValueSet, hid, hname, jsOr]
  · simp [csvToValueSet, hdesc]
  · intro hst; simp [csvToValueSet, hst, jsOr]
  · intro file content u hu
    simp [cliRunCsv, csvToValueSet, commanderStatus, hu, jsOr]

theorem flat_field_defaulting_witness :
    (csvToValueSet
        { csvFile := "dir/codes.csv", status := none, url := none,
          name := none, description := none, id := none } "code\nA").id
      = some "codes"
    ∧ (csvToValueSet
        { csvFile := "dir/codes.csv", status := none, url := none,
          name := none, description := none, id := none } "code\nA").status
      = "active"
    ∧ (cliRunCsv "dir/codes.csv" "code\nA"
        { status := none, url := none, name := none, description := none,
          id := none }).status = "draft" := by
  refine ⟨?_, ?_, ?_⟩
  · have h := (flat_field_defaulting
      { csvFile := "dir/codes.csv", status := none, url := none,
        name := none, description := none, id := none } "code\nA"
      rfl rfl rfl rfl).1
    rw [h]; rfl
  · exact (flat_field_defaulting
      { csvFile := "dir/codes.csv", status := none, url := none,
        name := none, description := none, id := none } "code\nA"
      rfl rfl rfl rfl).2.2.2.2.1 rfl
  · exact (flat_field_defaulting
      { csvFile := "dir/codes.csv", status := none, url := none,
        name := none, description := none, id := none } "code\nA"
      rfl rfl rfl rfl).2.2.2.2.2 "dir/codes.csv" "code\nA" _ rfl

theorem getLast_of_suffix {a b : List Char} (h : a <:+ b) (ha : a ≠ []) :
    b.getLast? = a.getLast? := by
  obtain ⟨t, ht⟩ := h
  rw [← ht]
  exact List.getLast?_append_of_ne_nil _ ha

theorem csv_not_suffix_append_json (l : List Char) :
    ".csv".data.isSuffixOf (l ++ "-value-set.json".data) = false := by
  by_contra hc
  rw [Bool.not_eq_false] at hc
  have hlast := getLast_of_suffix (List.isSuffixOf_iff_suffix.mp hc) (by decide)
  rw [List.getLast?_append_of_ne_nil _ (by decide)] at hlast
  exact absurd hlast (by decide)

theorem json_not_suffix_of_csv (file : String)
    (h : ".csv".data.isSuffixOf file.data = true) :
    ".json".data.isSuffixOf file.data = false := by
  by_contra hc
  rw [Bool.not_eq_false] at hc
  have h1 := getLast_of_suffix (List.isSuffixOf_iff_suffix.mp h) (by decide)
  have h2 := getLast_of_suffix (List.isSuffixOf_iff_suffix.mp hc) (by decide)
  rw [h1] at h2
  exact absurd h2 (by decide)

theorem replaceSuffix_pos (s old new : String)
    (h : old.data.isSuffixOf s.data = true) :
    replaceSuffix s old new
      = ⟨s.data.take (s.data.length - old.data.length) ++ new.data⟩ := by
  rw [replaceSuffix, if_pos h]

theorem replaceSuffix_neg (s old new : String)
    (h : old.data.isSuffixOf s.data = false) :
    replaceSuffix s old new = s := by
  rw [replaceSuffix, if_neg (by simp [h])]

/-- C10: with `--output` given as a bare flag, the derived path replaces
a trailing `.json` by `-value-set.json`, else replaces a trailing `.csv`
by `.json`, and for a path ending in neither the derivation returns the
input path itself unchanged — so the subsequent write targets and
overwrites the input file. -/
theorem derive_out_file_cases (file : String) :
    (".json".data.isSuffixOf file.data = true →
        deriveOutFile file
          = ⟨file.data.take (file.data.length - 5) ++ "-value-set.json".data⟩)
    ∧ (".csv".data.isSuffixOf file.data = true →
        deriveOutFile file
          = ⟨file.data.take (file.data.length - 4) ++ ".json".data⟩)
    ∧ (".json".data.isSuffixOf file.data = false →
        ".csv".data.isSuffixOf file.data = false →
        deriveOutFile file = file) := by
  have h5 : ".json".data.length = 5 := rfl
  have h4 : ".csv".data.length = 4 := rfl
  refine ⟨?_, ?_, ?_⟩
  · intro hj
    rw [deriveOutFile, replaceSuffix_pos file ".json" "-value-set.json" hj,
      replaceSuffix_neg _ _ _ (csv_not_suffix_append_json _), h5]
  · intro hcsv
    rw [deriveOutFile, replaceSuffix_neg _ _ _ (json_not_suffix_of_csv file hcsv),
      replaceSuffix_pos _ _ _ hcsv, h4]
  · intro hj hcsv
    rw [deriveOutFile, replaceSuffix_neg _ _ _ hj, replaceSuffix_neg _ _ _ hcsv]

theorem derive_out_file_cases_witness :
    deriveOutFile "input.json" = "input-value-set.json"
    ∧ deriveOutFile "data.csv" = "data.json"
    ∧ deriveOutFile "notes.txt" = "notes.txt" :=
  ⟨((derive_out_file_cases "input.json").1 (by decide)).trans (by decide),
   ((derive_out_file_cases "data.csv").2.1 (by decide)).trans (by decide),
   (derive_out_file_cases "notes.txt").2.2 (by decide) (by decide)⟩

/-- C1: the claimed field defaulting never happens.  On the end-to-end
scenario-2 input (document with `url` and one concept, options with only
a status) the function throws a `TypeError` while evaluating
`options.codeSystem.hasOwnProperty('url')` at convert.ts:28, because the
loaded document sits in the unused local `codeSystem` (convert.ts:25)
while `options.codeSystem` was never assigned; and in general every call
ends in such a `TypeError`, so no defaulted output is ever produced. -/
theorem structured_defaulting_type_error :
    codeSystemToValueSet
        { url := some "http://sys",
          concept := some [{ code := "A", display := some "Alpha",
                             definition := none }] }
        { jsonFile := "codesystem.json", status := "draft", url := none,
          name := none, description := none, id := none }
      = Except.error (JsError.typeError
          "Cannot read properties of undefined (reading hasOwnProperty)")
    ∧ ∀ (doc : CodeSystem) (options : StructOptions), ∃ msg,
        codeSystemToValueSet doc options
          = Except.error (JsError.typeError msg) := by
  refine ⟨rfl, fun doc options => ?_⟩
  rw [codeSystemToValueSet]
  split_ifs <;> exact ⟨_, rfl⟩

/-- C2: the advertised validation failure is unreachable.  A document
with an absent (or empty) concept list does make the call fail before
any output exists, but with the `undefined`-access `TypeError` from
convert.ts:28/35 — never with the documented
`Error('CodeSystem must have at least one concept')` from convert.ts:36,
which sits after the `options.codeSystem` accesses and therefore cannot
execute. -/
theorem missing_concepts_error_unreachable :
    codeSystemToValueSet { url := some "http://sys", concept := none }
        { jsonFile := "codesystem.json", status := "draft", url := none,
          name := none, description := none, id := none }
      = Except.error (JsError.typeError
          "Cannot read properties of undefined (reading hasOwnProperty)")
    ∧ codeSystemToValueSet { url := some "http://sys", concept := some [] }
        { jsonFile := "codesystem.json", status := "draft", url := some "u",
          name := some "n", description := some "d", id := some "i" }
      = Except.error (JsError.typeError
          "Cannot read properties of undefined (reading concept)")
    ∧ ∀ (doc : CodeSystem) (options : StructOptions),
        codeSystemToValueSet doc options
          ≠ Except.error (JsError.errorThrown
              "CodeSystem must have at least one concept") := by
  refine ⟨rfl, rfl, fun doc options h => ?_⟩
  rw [codeSystemToValueSet] at h
  split_ifs at h <;> simp [typeErrorUndefined] at h

theorem missing_concepts_error_unreachable_witness :
    codeSystemToValueSet { url := some "http://sys", concept := none }
        { jsonFile := "cs.json", status := "draft", url := none,
          name := none, description := none, id := none }
      ≠ Except.error (JsError.errorThrown
          "CodeSystem must have at least one concept") :=
  missing_concepts_error_unreachable.2.2
    { url := some "http://sys", concept := none }
    { jsonFile := "cs.json", status := "draft", url := none,
      name := none, description := none, id := none }

/-- C8: the structured conversion, including serialization, is a pure
function of the loaded document and the supplied options: the source
consults no clock, no randomness and no other ambient state
(convert.ts:15-63, 154), so two runs on equal inputs produce an
identical outcome — byte-identical serialized output whenever output is
produced at all (as established elsewhere, every structured run in fact
fails identically before producing output). -/
theorem structured_runs_identical (file1 file2 : String)
    (doc1 doc2 : CodeSystem) (o1 o2 : CliOptions)
    (hf : file1 = file2) (hd : doc1 = doc2) (ho : o1 = o2) :
    structuredRun file1 doc1 o1 = structuredRun file2 doc2 o2 := by
  rw [hf, hd, ho]

theorem structured_runs_identical_witness :
    structuredRun "cs.json"
        { url := some "http://sys",
          concept := some [{ code := "A", display := some "Alpha",
                             definition := none }] }
        { status := some "draft", url := none, name := none,
          description := none, id := none }
      = structuredRun "cs.json"
        { url := some "http://sys",
          concept := some [{ code := "A", display := some "Alpha",
                             definition := none }] }
        { status := some "draft", url := none, name := none,
          description := none, id := none } :=
  structured_runs_identical "cs.json" "cs.json" _ _ _ _ rfl rfl rfl


end ConvertTs
